import Mathlib

set_option autoImplicit false

/-!
Shallow embedding of the `xa` command-line assistant (Rust), covering the
secret store (`src/store/mod.rs`), the command resolver and template filler
(`src/prompt/mod.rs`), and the persisted-file loaders
(`src/config/mod.rs`, `src/prompt/mod.rs`, `src/store/mod.rs`).

Strings are modelled as Lean `String` (lists of unicode scalar values);
the few byte-index computations in the source only ever index at ASCII
characters, where char positions and byte positions identify the same
boundaries.  External collaborators (the TOML and JSON parsers, the LLM
transport) are passed in as function parameters, mirroring the way the
source treats them as black boxes.
-/

namespace Xa

/-- Model of Rust `char::to_ascii_lowercase`: maps A-Z (scalar values 65-90)
to a-z by adding 32, leaves every other character unchanged. -/
def asciiLower (c : Char) : Char :=
  if 65 ≤ c.toNat ∧ c.toNat ≤ 90 then Char.ofNat (c.toNat + 32) else c

/-- Model of Rust `char::is_ascii_alphanumeric`: the ASCII ranges A-Z, a-z
and 0-9. -/
def isAsciiAlnum (c : Char) : Bool :=
  (decide (65 ≤ c.toNat) && decide (c.toNat ≤ 90)) ||
  (decide (97 ≤ c.toNat) && decide (c.toNat ≤ 122)) ||
  (decide (48 ≤ c.toNat) && decide (c.toNat ≤ 57))

/-- Model of Rust `char::is_whitespace` (the Unicode `White_Space`
property). -/
def isRustWhitespace (c : Char) : Bool :=
  let n := c.toNat
  (decide (9 ≤ n) && decide (n ≤ 13)) || decide (n = 32) || decide (n = 0x85) ||
  decide (n = 0xA0) || decide (n = 0x1680) ||
  (decide (0x2000 ≤ n) && decide (n ≤ 0x200A)) || decide (n = 0x2028) ||
  decide (n = 0x2029) || decide (n = 0x202F) || decide (n = 0x205F) ||
  decide (n = 0x3000)

/-- Does `pat` occur as a prefix of `s`? (helper for substring search and
replacement). -/
def startsWithL : List Char → List Char → Bool
  | [], _ => true
  | _ :: _, [] => false
  | p :: ps, c :: cs => p == c && startsWithL ps cs

/-- Does `pat` occur as a contiguous substring of `s`?  Models Rust
`str::contains` for literal string patterns. -/
def occursIn (pat : List Char) : List Char → Bool
  | [] => startsWithL pat []
  | c :: rest => startsWithL pat (c :: rest) || occursIn pat rest

/-- Fuel-indexed worker for `replaceAll`; the fuel is an upper bound on the
length of the haystack, so the zero-fuel row is never reached by
`replaceAll` on a nonempty haystack. -/
def replaceAllF (pat rep : List Char) : Nat → List Char → List Char
  | _, [] => []
  | 0, s => s
  | fuel + 1, c :: rest =>
    if startsWithL pat (c :: rest) && !pat.isEmpty then
      rep ++ replaceAllF pat rep fuel (List.drop pat.length (c :: rest))
    else
      c :: replaceAllF pat rep fuel rest

/-- Model of Rust `str::replace` for a nonempty literal pattern: every
non-overlapping occurrence, scanned left to right, is replaced (the source
never calls `replace` with an empty pattern). -/
def replaceAll (pat rep s : List Char) : List Char :=
  replaceAllF pat rep s.length s

/-- String-level wrapper matching the Rust call shape `s.replace(pat, rep)`. -/
def replaceStr (s pat rep : String) : String :=
  ⟨replaceAll pat.data rep.data s.data⟩

/-- String-level wrapper for substring containment, Rust `s.contains(pat)`. -/
def containsStr (s pat : String) : Bool := occursIn pat.data s.data

/-- Worker for `splitWhitespace`: accumulates the current word in reverse. -/
def splitWsAux : List Char → List Char → List (List Char)
  | [], acc => if acc.isEmpty then [] else [acc.reverse]
  | c :: rest, acc =>
    if isRustWhitespace c then
      if acc.isEmpty then splitWsAux rest []
      else acc.reverse :: splitWsAux rest []
    else splitWsAux rest (c :: acc)

/-- Model of Rust `str::split_whitespace`: the maximal nonempty runs of
non-whitespace characters. -/
def splitWhitespace (s : String) : List String :=
  (splitWsAux s.data []).map fun l => ⟨l⟩

/-- Model of Rust `str::trim`: strip leading and trailing whitespace. -/
def trim (s : String) : String :=
  ⟨((s.data.dropWhile isRustWhitespace).reverse.dropWhile isRustWhitespace).reverse⟩

/-- Model of Rust `str::to_lowercase`, character-wise.  The library performs
full Unicode lowercasing; on ASCII input (all inputs the claims exercise)
this character-wise form agrees with it. -/
def lowercase (s : String) : String := ⟨s.data.map asciiLower⟩

/-! ## Secret store data model (`src/store/mod.rs`) -/

/-- A persisted secret-store record (`StoreEntry`, store/mod.rs:14-21).
The `u64` id is modelled as `Nat`. -/
structure StoreEntry where
  id : Nat
  tag : String
  note : String
  secret : String
  created_at : String
deriving DecidableEq

/-- The structured reply expected from the tagging request
(`TagResponse`, store/mod.rs:23-27). -/
structure TagResponse where
  tag : String
  reason : Option String
deriving DecidableEq

/-- The structured reply expected from the search request
(`SearchResponse`, store/mod.rs:29-34). -/
structure SearchResponse where
  found : Bool
  id : Option Nat
  reason : Option String
deriving DecidableEq

/-- The entry shape sent to the LLM on search (`MaskedEntry`,
store/mod.rs:253-260): every field of a `StoreEntry` except the raw
secret, which is replaced by a placeholder naming the id. -/
structure MaskedEntry where
  id : Nat
  tag : String
  note : String
  created_at : String
  secret_placeholder : String
deriving DecidableEq

/-- Model of `fallback_tag` (store/mod.rs:183-195): lowercase the first at
most four whitespace-separated words of the note and join them with
hyphens, or return "untagged" when there are none. -/
def fallback_tag (note : String) : String :=
  let words := (((splitWhitespace note).filter fun w => !w.isEmpty).take 4).map lowercase
  if words.isEmpty then "untagged" else String.intercalate "-" words

/-- Model of `sanitize_tag`'s character loop (store/mod.rs:198-211):
ASCII alphanumerics are pushed lowercased, runs of hyphens and whitespace
collapse to one hyphen, all other characters are dropped (without
resetting the hyphen flag). -/
def sanitizeCore : List Char → Bool → List Char
  | [], _ => []
  | c :: rest, lastDash =>
    if isAsciiAlnum c then asciiLower c :: sanitizeCore rest false
    else if c == '-' || isRustWhitespace c then
      if lastDash then sanitizeCore rest true
      else '-' :: sanitizeCore rest true
    else sanitizeCore rest lastDash

/-- Model of `sanitize_tag` (store/mod.rs:197-221): run the character loop,
then strip leading hyphens (`while out.starts_with('-')`) and trailing
hyphens (`while out.ends_with('-')`). -/
def sanitize_tag (s : String) : String :=
  ⟨(((sanitizeCore s.data false).dropWhile (· == '-')).reverse.dropWhile (· == '-')).reverse⟩

/-- Model of `ensure_unique_tag` (store/mod.rs:223-236).  The existing-tag
set is modelled as a list (membership is all the code observes); `now`
models `Utc::now().timestamp_millis()` in the last-resort fallback. -/
def ensure_unique_tag (tag : String) (existing_tags : List String) (now : Nat) : String :=
  if !(existing_tags.contains (lowercase tag)) then tag
  else
    match (List.range' 2 98).find?
        (fun i => !(existing_tags.contains (lowercase (tag ++ "-" ++ toString i)))) with
    | some i => tag ++ "-" ++ toString i
    | none => tag ++ "-" ++ toString now

/-- Model of `parse_json` (store/mod.rs:238-251), generic over the strict
deserializer `fromStr` (the black-box `serde_json::from_str::<T>`): try the
whole input, and on failure retry on the slice from the first `\x7b` to the
last `\x7d` provided the first strictly precedes the last.  Rust's byte
indices of the ASCII braces identify the same boundaries as these char
indices. -/
def parse_json {α : Type} (fromStr : String → Option α) (input : String) : Option α :=
  match fromStr input with
  | some parsed => some parsed
  | none =>
    match input.data.findIdx? (· == '{'), input.data.reverse.findIdx? (· == '}') with
    | some start, some rend =>
      let stop := input.data.length - 1 - rend
      if start ≥ stop then none
      else fromStr ⟨(input.data.drop start).take (stop - start + 1)⟩
    | _, _ => none

/-- Model of `build_masked_entries` (store/mod.rs:262-273). -/
def build_masked_entries (entries : List StoreEntry) : List MaskedEntry :=
  entries.map fun e =>
    { id := e.id
      tag := e.tag
      note := e.note
      created_at := e.created_at
      secret_placeholder := "SECRET_" ++ toString e.id }

/-- Hex digit for the JSON `\u` escape renderer. -/
def hexDigit (d : Nat) : Char :=
  if d < 10 then Char.ofNat (48 + d) else Char.ofNat (87 + d)

/-- Four-digit hex rendering used by JSON control-character escapes. -/
def hex4 (n : Nat) : String :=
  ⟨[hexDigit (n / 4096 % 16), hexDigit (n / 256 % 16), hexDigit (n / 16 % 16), hexDigit (n % 16)]⟩

/-- Model of serde_json's escaping of one character inside a string
literal: quote, backslash and the named control characters get two-char
escapes, remaining control characters a `\u` escape, everything else is
emitted verbatim. -/
def jsonEscapeChar (c : Char) : String :=
  if c == '"' then "\\\""
  else if c == '\\' then "\\\\"
  else if c == '\n' then "\\n"
  else if c == '\r' then "\\r"
  else if c == '\t' then "\\t"
  else if c == '\x08' then "\\b"
  else if c == '\x0c' then "\\f"
  else if c.toNat < 0x20 then "\\u" ++ hex4 c.toNat
  else String.singleton c

/-- Escape a whole string for inclusion in a JSON document. -/
def jsonEscape (s : String) : String :=
  String.join (s.data.map jsonEscapeChar)

/-- Model of `serde_json::to_string_pretty` on a `Vec<MaskedEntry>`
(store/mod.rs:175): two-space-indented JSON with the fields in declaration
order.  The empty vector renders as `[]`, which is also the
`unwrap_or_else` fallback in the source. -/
def renderMaskedEntriesPretty (l : List MaskedEntry) : String :=
  if l.isEmpty then "[]"
  else
    "[\n" ++
    String.intercalate ",\n" (l.map fun e =>
      "  \x7b\n    \"id\": " ++ toString e.id ++
      ",\n    \"tag\": \"" ++ jsonEscape e.tag ++
      "\",\n    \"note\": \"" ++ jsonEscape e.note ++
      "\",\n    \"created_at\": \"" ++ jsonEscape e.created_at ++
      "\",\n    \"secret_placeholder\": \"" ++ jsonEscape e.secret_placeholder ++
      "\"\n  \x7d") ++
    "\n]"

/-- Model of `build_search_prompt` (store/mod.rs:174-181). -/
def build_search_prompt (query : String) (masked_entries : List MaskedEntry) : String :=
  "You are a secret locator. Given a user query and a list of entries, find the best matching entry.\n\nRules:\n- Return JSON only.\n- JSON schema: \x7b\"found\": boolean, \"id\": number|null, \"reason\": string\x7d.\n- If nothing matches well, set found=false and id=null.\n- Do not invent ids.\n\nEntries (secret is placeholder only):\n"
  ++ renderMaskedEntriesPretty masked_entries
  ++ "\n\nQuery: " ++ query ++ "\n\nReturn JSON only."

/-- Insertion step for the lexicographic string sort. -/
def insertSorted (s : String) : List String → List String
  | [] => [s]
  | t :: rest => if s ≤ t then s :: t :: rest else t :: insertSorted s rest

/-- Model of `Vec::sort` on strings (store/mod.rs:165): lexicographic
order on scalar values, which agrees with Rust's byte-wise UTF-8 order. -/
def sortStrings (l : List String) : List String := l.foldr insertSorted []

/-- Model of Rust's `Debug` rendering of a `String`, as used by the
`{:?}` format of the existing-tag list (escaping modelled as for JSON). -/
def debugString (s : String) : String := "\"" ++ jsonEscape s ++ "\""

/-- Model of Rust's `Debug` rendering of a `Vec<String>`. -/
def debugStringList (l : List String) : String :=
  "[" ++ String.intercalate ", " (l.map debugString) ++ "]"

/-- Model of `build_tag_prompt` (store/mod.rs:163-172): the existing tags
are sorted before being interpolated. -/
def build_tag_prompt (note : String) (existing_tags : List String) : String :=
  "You generate short, memorable tags for secret notes.\n\nRules:\n- Return JSON only.\n- JSON schema: \x7b\"tag\": string, \"reason\": string\x7d.\n- tag must be 2-4 words max, lowercase, use hyphens instead of spaces.\n- tag must not include any sensitive data (only use the note).\n- tag must not duplicate existing tags.\n\nExisting tags: "
  ++ debugStringList (sortStrings existing_tags)
  ++ "\n\nNote: " ++ note ++ "\n\nReturn JSON only."

/-- Observable outcome of one `search_secret` run. -/
inductive SearchOutcome where
  | emptyQueryError
  | notFound
  | revealed (secret : String)
deriving DecidableEq

/-- A `search_secret` run paired with whether the LLM client was invoked. -/
structure SearchRun where
  outcome : SearchOutcome
  llmCalled : Bool
deriving DecidableEq

/-- Model of `search_secret` (store/mod.rs:91-125).  `entries` is the
loaded store, `llmResponse` the black-box reply of `process_with_llm`, and
`fromStr` the strict JSON deserializer for `SearchResponse`.  The
`llmCalled` flag records whether control reached the `process_with_llm`
call. -/
def search_secret (fromStr : String → Option SearchResponse) (entries : List StoreEntry)
    (query : String) (llmResponse : String) : SearchRun :=
  if (trim query).isEmpty then ⟨.emptyQueryError, false⟩
  else if entries.isEmpty then ⟨.notFound, false⟩
  else
    match parse_json fromStr llmResponse with
    | some result =>
      if result.found then
        match result.id with
        | some id =>
          match entries.find? (fun e => e.id == id) with
          | some entry => ⟨.revealed entry.secret, true⟩
          | none => ⟨.notFound, true⟩
        | none => ⟨.notFound, true⟩
      else ⟨.notFound, true⟩
    | none => ⟨.notFound, true⟩

/-- Observable outcome of one `add_secret_with_tag` run (the function
returns `Ok(())` in all of these cases). -/
inductive AddOutcome where
  | emptySecretError
  | emptyNoteError
  | added (tag : String)
deriving DecidableEq

/-- An `add_secret_with_tag` run: outcome, whether the LLM client was
invoked, whether the store file was written, and the entry list after the
run. -/
structure AddRun where
  outcome : AddOutcome
  llmCalled : Bool
  storeWritten : Bool
  finalEntries : List StoreEntry
deriving DecidableEq

/-- Model of `add_secret_with_tag` (store/mod.rs:36-89).  `entries` is the
loaded store; `llmResponse` the black-box reply; `fromStr` the strict JSON
deserializer for `TagResponse`; `now` models the millisecond timestamps
drawn during the run and `nowRfc` the RFC 3339 rendering of the creation
time. -/
def add_secret_with_tag (fromStr : String → Option TagResponse) (entries : List StoreEntry)
    (secret note : String) (llmResponse : String) (now : Nat) (nowRfc : String) : AddRun :=
  let secret := trim secret
  let note := trim note
  if secret.isEmpty then ⟨.emptySecretError, false, false, entries⟩
  else if note.isEmpty then ⟨.emptyNoteError, false, false, entries⟩
  else
    let existing_tags := entries.map fun e => lowercase e.tag
    let tag0 :=
      match parse_json fromStr llmResponse with
      | some parsed => parsed.tag
      | none => fallback_tag note
    let tag1 := sanitize_tag tag0
    let tag2 := if tag1.isEmpty then fallback_tag note else tag1
    let tag := ensure_unique_tag tag2 existing_tags now
    ⟨.added tag, true, true, entries ++ [⟨now, tag, note, secret, nowRfc⟩]⟩

/-! ## Config and prompt persistence (`src/config/mod.rs`, `src/prompt/mod.rs`) -/

/-- The API configuration (`Config`, config/mod.rs:6-11). -/
structure Config where
  base_url : String
  api_key : String
  default_model : Option String
deriving DecidableEq

/-- The seeded default configuration (`Config::default`,
config/mod.rs:13-21). -/
def defaultConfig : Config :=
  { base_url := "https://api.openai.com/v1"
    api_key := ""
    default_model := some "gpt-4o-mini" }

/-- A declared named argument of a prompt template (`PromptArg`,
prompt/mod.rs:13-18). -/
structure PromptArg where
  name : String
  default_value : String
  description : Option String
deriving DecidableEq

/-- A named prompt template (`PromptEntry`, prompt/mod.rs:20-25). -/
structure PromptEntry where
  template : String
  description : Option String
  args : Option (List PromptArg)
deriving DecidableEq

/-- The prompt store (`PromptConfig`, prompt/mod.rs:8-11).  The `HashMap`
is modelled as an association list; the source only observes key lookup,
key membership, insertion and iteration. -/
structure PromptConfig where
  prompts : List (String × PromptEntry)
deriving DecidableEq

/-- The seeded default prompt set (`PromptConfig::default`,
prompt/mod.rs:27-87), in source insertion order. -/
def defaultPromptConfig : PromptConfig :=
  { prompts :=
    [ ("translate",
       { template := "You are a professional translator, please translate the following text into natural, idiomatic {target_lang}:\n\n{input}. Avoid output anything else except the final result."
         description := some "Translate text (default target: zh)"
         args := some [{ name := "target_lang", default_value := "zh",
                         description := some "Target language for translation" }] }),
      ("polish",
       { template := "You are an expert editor. Please polish the following text to make it more clear, concise, and natural in a {tone} tone:\n\n{input}. Avoid output anything else except the final result."
         description := some "Polish text for clarity"
         args := some [{ name := "tone", default_value := "professional",
                         description := some "Tone for polishing (e.g., casual, professional, friendly)" }] }),
      ("rewrite",
       { template := "You are a skilled writer. Please rewrite the following text in a {style} style while preserving the meaning:\n\n{input}. Avoid output anything else except the final result."
         description := some "Rewrite text in different style"
         args := some [{ name := "style", default_value := "formal",
                         description := some "Writing style for rewrite (e.g., casual, formal, creative)" }] }),
      ("summarize",
       { template := "You are an expert summarizer. Please provide a concise summary of the following text with a {length} length:\n\n{input}. Avoid output anything else except the final result."
         description := some "Summarize text"
         args := some [{ name := "length", default_value := "medium",
                         description := some "Summary length (e.g., short, medium, long)" }] }),
      ("ask",
       { template := "You are a helpful assistant called xa, execute anything by your side. {input}"
         description := some "Interactive conversation mode"
         args := none }) ] }

/-- An abstract run of one of the loaders: the value handed to the caller
(`none` means the error was propagated), whether the on-disk file was
renamed to its `.backup` path, whether the corruption warning was emitted,
and whether a freshly seeded default document was written to the file. -/
structure LoadRun (α : Type) where
  result : Option α
  backedUp : Bool
  warned : Bool
  wroteDefault : Bool
deriving DecidableEq

/-- Model of `load_config` (config/mod.rs:198-211), abstracted over
whether `config.toml` exists, its content, and the black-box TOML
deserializer `parse`.  Note that a parse failure is propagated to the
caller via `?` — there is no backup/reseed branch in this loader. -/
def load_config (fileExists : Bool) (content : String)
    (parse : String → Option Config) : LoadRun Config :=
  if !fileExists then ⟨some defaultConfig, false, false, false⟩
  else
    match parse content with
    | some c => ⟨some c, false, false, false⟩
    | none => ⟨none, false, false, false⟩

/-- Model of `load_store` (store/mod.rs:127-150): a parse failure renames
`stores.toml` to its backup path, warns, and continues with the default
(empty) store; the default is not written to disk here (the renamed file
simply no longer exists until the next save). -/
def load_store (fileExists : Bool) (content : String)
    (parse : String → Option (List StoreEntry)) : LoadRun (List StoreEntry) :=
  if !fileExists then ⟨some [], false, false, false⟩
  else
    match parse content with
    | some entries => ⟨some entries, false, false, false⟩
    | none => ⟨some [], true, true, false⟩

/-- Model of the default-merging step of `load_prompt_config`
(prompt/mod.rs:289-295): every default key absent from the stored document
is inserted. -/
def mergeDefaults (c : PromptConfig) : PromptConfig :=
  ⟨defaultPromptConfig.prompts.foldl
    (fun acc kv => if acc.any (fun p => p.1 == kv.1) then acc else acc ++ [kv])
    c.prompts⟩

/-- Model of `load_prompt_config` (prompt/mod.rs:256-302): a parse failure
renames `prompts.toml` to its backup path, warns, writes a freshly seeded
default file and continues with it; a missing file is likewise seeded; in
every case the defaults are merged in and the merged document is
returned. -/
def load_prompt_config (fileExists : Bool) (content : String)
    (parse : String → Option PromptConfig) : LoadRun PromptConfig :=
  let step : PromptConfig × Bool × Bool × Bool :=
    if !fileExists then (defaultPromptConfig, false, false, true)
    else
      match parse content with
      | some c => (c, false, false, false)
      | none => (defaultPromptConfig, true, true, true)
  ⟨some (mergeDefaults step.1), step.2.1, step.2.2.1, step.2.2.2⟩

/-! ## Command resolver (`src/prompt/mod.rs:304-351`) -/

/-- The fold of the fuzzy-matching loop (prompt/mod.rs:332-343): track the
best strictly-improving score, starting from `i64::MIN`.  The scorer
`fuzzy` models the black-box `SkimMatcherV2::fuzzy_match`. -/
def fuzzyBest (fuzzy : String → String → Option Int) (input_cmd : String)
    (keys : List String) : Option String × Int :=
  keys.foldl
    (fun best key =>
      match fuzzy key input_cmd with
      | some score => if score > best.2 then (some key, score) else best
      | none => best)
    (none, -(2 ^ 63 : Int))

/-- Model of `find_command` (prompt/mod.rs:304-351).  The command map is
modelled by its key list (the only part the function observes); the second
component of the result is the candidate list of the ambiguity diagnostic
(empty when no diagnostic is printed).  Exact match is tried first, then
prefix match (`key.starts_with(input_cmd)`, modelled by `startsWithL`),
then fuzzy match. -/
def find_command (fuzzy : String → String → Option Int) (keys : List String)
    (input_cmd : String) : Option String × List String :=
  if keys.contains input_cmd then (some input_cmd, [])
  else
    let prefix_matches := keys.filter fun key => startsWithL input_cmd.data key.data
    match prefix_matches with
    | [k] => (some k, [])
    | [] =>
      let best := fuzzyBest fuzzy input_cmd keys
      (if best.2 > 0 then best.1 else none, [])
    | _ => (none, prefix_matches)

/-! ## Template filler (`src/prompt/mod.rs:374-410`) -/

/-- The named-argument pass of `process_template_with_args`
(prompt/mod.rs:381-390): for the declared argument at position `i`, the
value is the positional argument at index `i` when present, else the
declared default, and every occurrence of `\x7bname\x7d` is replaced. -/
def applyNamedArgs (args : List String) : List PromptArg → Nat → String → String
  | [], _, r => r
  | pa :: rest, i, r =>
    let value := if i < args.length then args.getD i pa.default_value else pa.default_value
    applyNamedArgs args rest (i + 1) (replaceStr r ("\x7b" ++ pa.name ++ "\x7d") value)

/-- The numbered-argument pass of `process_template_with_args`
(prompt/mod.rs:392-401): the positional argument at index `i` replaces
`\x7barg(i+1)\x7d` unless a declared named argument already consumed
position `i`. -/
def applyNumberedArgs (promptArgs : Option (List PromptArg)) :
    Nat → List String → String → String
  | _, [], r => r
  | i, arg :: rest, r =>
    let handled := (promptArgs.map fun v => decide (i < v.length)).getD false
    let r := if handled then r else replaceStr r ("\x7barg" ++ toString (i + 1) ++ "\x7d") arg
    applyNumberedArgs promptArgs (i + 1) rest r

/-- Model of `process_template_with_args` (prompt/mod.rs:374-410): replace
`\x7binput\x7d`, then each declared named argument in order, then the
remaining numbered placeholders, then — if the *current result* contains
`\x7bargs\x7d` — the catch-all placeholder with all positional arguments
joined by spaces. -/
def process_template_with_args (template input : String) (args : List String)
    (promptArgs : Option (List PromptArg)) : String :=
  let r := replaceStr template "\x7binput\x7d" input
  let r :=
    match promptArgs with
    | some pas => applyNamedArgs args pas 0 r
    | none => r
  let r := applyNumberedArgs promptArgs 0 args r
  if containsStr r "\x7bargs\x7d" then
    replaceStr r "\x7bargs\x7d" (String.intercalate " " args)
  else r

/-- Fuel-indexed one-pass simultaneous substitution: at each position the
first matching substitution fires, its replacement is emitted without
being rescanned, and scanning resumes after the matched occurrence. -/
def onePassFillF (subs : List (String × String)) : Nat → List Char → List Char
  | _, [] => []
  | 0, s => s
  | fuel + 1, c :: rest =>
    match subs.find? (fun pr => startsWithL pr.1.data (c :: rest) && !pr.1.data.isEmpty) with
    | some pr => pr.2.data ++ onePassFillF subs fuel (List.drop pr.1.data.length (c :: rest))
    | none => c :: onePassFillF subs fuel rest

/-- Modelled from the spec: the reading of "template filling replaces
every declared placeholder exactly once per occurrence; unknown
placeholders are left verbatim" as a single simultaneous pass over the
template — each placeholder occurrence of the template is substituted once
and substituted text is never rescanned.  The declared substitutions are
`\x7binput\x7d`, the named arguments (positional value or default), the
numbered placeholders not consumed by named arguments, and the catch-all
`\x7bargs\x7d`, in the priority order of the implementation's stages. -/
def specOnePassFill (template input : String) (args : List String)
    (promptArgs : Option (List PromptArg)) : String :=
  let named := (promptArgs.getD []).enum.map fun pr =>
    ("\x7b" ++ pr.2.name ++ "\x7d",
     if pr.1 < args.length then args.getD pr.1 pr.2.default_value else pr.2.default_value)
  let numbered := args.enum.filterMap fun pr =>
    if (promptArgs.map fun v => decide (pr.1 < v.length)).getD false then none
    else some ("\x7barg" ++ toString (pr.1 + 1) ++ "\x7d", pr.2)
  let subs := ("\x7binput\x7d", input) :: named ++ numbered ++
    [("\x7bargs\x7d", String.intercalate " " args)]
  ⟨onePassFillF subs template.data.length template.data⟩

/-! ## Entry points in `src/main.rs` -/

/-- The note string assembled by the `add` entry point
(main.rs:95-99): the extra arguments joined by single spaces, or empty
when there are none. -/
def mainAddNote (args : List String) : String :=
  if args.isEmpty then "" else String.intercalate " " args

/-- Model of the usage guard of the `add` entry point (main.rs:93-104):
the process exits non-zero exactly when the raw (untrimmed) secret or the
raw joined note is the empty string. -/
def mainAddExits (input : Option String) (args : List String) : Bool :=
  (input.getD "").isEmpty || (mainAddNote args).isEmpty

/-- Executable check for two consecutive hyphens somewhere in a character
list. -/
def hasDoubleDash : List Char → Bool
  | [] => false
  | [_] => false
  | c :: d :: rest => (c == '-' && d == '-') || hasDoubleDash (d :: rest)

/-- A character that the `sanitize_tag` loop may emit: an ASCII
alphanumeric already fixed by `asciiLower`, or a hyphen. -/
def cleanChar (c : Char) : Bool :=
  (isAsciiAlnum c && (asciiLower c == c)) || c == '-'

/-- Does the list start with a hyphen? (its reverse form detects a
trailing hyphen). -/
def headDash : List Char → Bool
  | [] => false
  | c :: _ => c == '-'

/-- View of a store entry with the secret field removed; two entry lists
agreeing under this view differ at most in their secret strings. -/
def maskView (e : StoreEntry) : Nat × String × String × String :=
  (e.id, e.tag, e.note, e.created_at)

/-- An existing-tag set that occupies the candidate `t`, every
disambiguation candidate `t-2` … `t-99`, and the tag `t-5` that the
timestamp fallback produces when the timestamp is 5. -/
def collidingTags : List String :=
  "t" :: (List.range' 2 98).map fun i => "t-" ++ toString i

/-! ## Theorems -/

/-- A nonempty list is not `isEmpty`. -/
theorem isEmpty_false_of_ne_nil {α : Type} {l : List α} (h : l ≠ []) : l.isEmpty = false := by
  cases l with
  | nil => exact absurd rfl h
  | cons a t => rfl

/-- Every word produced by the whitespace splitter is nonempty. -/
theorem splitWsAux_ne_nil : ∀ (l acc : List Char), ∀ w ∈ splitWsAux l acc, w ≠ [] := by
  intro l
  induction l with
  | nil =>
    intro acc w hw
    by_cases ha : acc.isEmpty
    · simp [splitWsAux, ha] at hw
    · simp [splitWsAux, ha] at hw
      subst hw
      simp only [ne_eq, List.reverse_eq_nil_iff]
      exact fun h => ha (by simp [h])
  | cons c rest ih =>
    intro acc w hw
    by_cases hc : isRustWhitespace c
    · by_cases ha : acc.isEmpty
      · exact ih [] w (by simpa [splitWsAux, hc, ha] using hw)
      · simp only [splitWsAux, hc, ha, if_true, if_false, Bool.false_eq_true, List.mem_cons] at hw
        rcases hw with hw | hw
        · subst hw
          simp only [ne_eq, List.reverse_eq_nil_iff]
          exact fun h => ha (by simp [h])
        · exact ih [] w hw
    · exact ih (c :: acc) w (by simpa [splitWsAux, hc] using hw)

/-- Every word of `splitWhitespace` is a nonempty string. -/
theorem splitWhitespace_ne_empty (s : String) : ∀ w ∈ splitWhitespace s, w.isEmpty = false := by
  intro w hw
  simp only [splitWhitespace, List.mem_map] at hw
  obtain ⟨lw, hlw, rfl⟩ := hw
  have hne := splitWsAux_ne_nil s.data [] lw hlw
  cases lw with
  | nil => exact absurd rfl hne
  | cons c t =>
    have hmk : ¬(String.mk (c :: t) = "") := by
      intro h
      exact List.noConfusion (congrArg String.data h)
    exact Bool.eq_false_iff.mpr fun h => hmk ((String.isEmpty_iff _).mp h)

/-- C9: for every non-empty (after trimming) query, searching an empty
store reports not-found without invoking the LLM client. -/
theorem search_empty_store_not_found (fromStr : String → Option SearchResponse)
    (query llmResponse : String) (hq : (trim query).isEmpty = false) :
    search_secret fromStr [] query llmResponse = ⟨.notFound, false⟩ := by
  simp [search_secret, hq]

/-- Witness for `search_empty_store_not_found` at the query "find my key". -/
theorem search_empty_store_not_found_witness :
    (trim "find my key").isEmpty = false ∧
    search_secret (fun _ => none) [] "find my key" "anything" = ⟨.notFound, false⟩ :=
  ⟨by decide, search_empty_store_not_found (fun _ => none) "find my key" "anything" (by decide)⟩

/-- C1: on a valid query and nonempty store, `search_secret` either
reveals the secret of some stored entry or prints the uniform not-found
message, and it reveals one exactly when the permissive JSON parse of the
LLM response succeeds with `found = true` and an id that occurs among the
stored entries' ids. -/
theorem search_secret_reveal_iff (fromStr : String → Option SearchResponse)
    (entries : List StoreEntry) (query llmResponse : String)
    (hq : (trim query).isEmpty = false) (hne : entries ≠ []) :
    ((search_secret fromStr entries query llmResponse).outcome = .notFound ∨
      ∃ e, e ∈ entries ∧
        (search_secret fromStr entries query llmResponse).outcome = .revealed e.secret) ∧
    ((∃ s, (search_secret fromStr entries query llmResponse).outcome = .revealed s) ↔
      ∃ r, parse_json fromStr llmResponse = some r ∧ r.found = true ∧
        ∃ i, r.id = some i ∧ i ∈ entries.map StoreEntry.id) := by
  have hne' : entries.isEmpty = false := isEmpty_false_of_ne_nil hne
  rcases hp : parse_json fromStr llmResponse with _ | r
  · have hout : search_secret fromStr entries query llmResponse = ⟨.notFound, true⟩ := by
      simp [search_secret, hq, hne', hp]
    rw [hout]
    refine ⟨Or.inl rfl, ?_⟩
    simp
  · cases hf : r.found
    · have hout : search_secret fromStr entries query llmResponse = ⟨.notFound, true⟩ := by
        simp [search_secret, hq, hne', hp, hf]
      rw [hout]
      refine ⟨Or.inl rfl, ?_⟩
      constructor
      · rintro ⟨s, hs⟩
        exact SearchOutcome.noConfusion hs
      · rintro ⟨r', hr', hfound', -⟩
        injection hr' with h
        subst h
        rw [hf] at hfound'
        exact Bool.noConfusion hfound'
    · rcases hid : r.id with _ | i
      · have hout : search_secret fromStr entries query llmResponse = ⟨.notFound, true⟩ := by
          simp [search_secret, hq, hne', hp, hf, hid]
        rw [hout]
        refine ⟨Or.inl rfl, ?_⟩
        constructor
        · rintro ⟨s, hs⟩
          exact SearchOutcome.noConfusion hs
        · rintro ⟨r', hr', -, i', hi', -⟩
          injection hr' with h
          subst h
          rw [hid] at hi'
          exact Option.noConfusion hi'
      · rcases hfind : entries.find? (fun e => e.id == i) with _ | e
        · have hout : search_secret fromStr entries query llmResponse = ⟨.notFound, true⟩ := by
            simp [search_secret, hq, hne', hp, hf, hid, hfind]
          rw [hout]
          refine ⟨Or.inl rfl, ?_⟩
          constructor
          · rintro ⟨s, hs⟩
            exact SearchOutcome.noConfusion hs
          · rintro ⟨r', hr', -, i', hi', hmem⟩
            injection hr' with h
            subst h
            rw [hid] at hi'
            injection hi' with h2
            subst h2
            obtain ⟨e, he, hei⟩ := List.mem_map.mp hmem
            have hn := List.find?_eq_none.mp hfind e he
            simp [hei] at hn
        · have hout : search_secret fromStr entries query llmResponse =
              ⟨.revealed e.secret, true⟩ := by
            simp [search_secret, hq, hne', hp, hf, hid, hfind]
          have hmem := List.mem_of_find?_eq_some hfind
          have heq : e.id = i := by simpa using List.find?_some hfind
          rw [hout]
          refine ⟨Or.inr ⟨e, hmem, rfl⟩, ?_⟩
          constructor
          · intro _
            exact ⟨r, rfl, hf, i, hid, List.mem_map.mpr ⟨e, hmem, heq⟩⟩
          · intro _
            exact ⟨e.secret, rfl⟩

/-- Witness for `search_secret_reveal_iff`: a one-entry store, a response
the parser maps to `found = true` with the entry's id. -/
theorem search_secret_reveal_iff_witness :
    (trim "gitcode token").isEmpty = false ∧
    ((∃ s, (search_secret
        (fun s => if s == "ok" then some (⟨true, some 1, none⟩ : SearchResponse) else none)
        [⟨1, "gitcode", "gitcode api token", "sk-123", "2024"⟩]
        "gitcode token" "ok").outcome = .revealed s) ↔
      ∃ r, parse_json
          (fun s => if s == "ok" then some (⟨true, some 1, none⟩ : SearchResponse) else none) "ok" = some r ∧
        r.found = true ∧ ∃ i, r.id = some i ∧
          i ∈ [(⟨1, "gitcode", "gitcode api token", "sk-123", "2024"⟩ : StoreEntry)].map
            StoreEntry.id) :=
  ⟨by decide,
    (search_secret_reveal_iff (fun s => if s == "ok" then some (⟨true, some 1, none⟩ : SearchResponse) else none)
      [⟨1, "gitcode", "gitcode api token", "sk-123", "2024"⟩]
      "gitcode token" "ok" (by decide) (by decide)).2⟩

/-- C10: a secret or note that is empty after trimming makes
`add_secret_with_tag` report an error on the diagnostic stream and return
`Ok` without calling the LLM and without writing the store; and `main`'s
usage guard exits non-zero exactly when a raw argument is the empty
string, so whitespace-only arguments reach this silent-success path. -/
theorem add_blank_input_silent_success (fromStr : String → Option TagResponse)
    (entries : List StoreEntry) (secret note llmResponse : String) (now : Nat) (nowRfc : String)
    (h : (trim secret).isEmpty = true ∨ (trim note).isEmpty = true) :
    (((add_secret_with_tag fromStr entries secret note llmResponse now nowRfc).outcome =
        .emptySecretError ∨
      (add_secret_with_tag fromStr entries secret note llmResponse now nowRfc).outcome =
        .emptyNoteError) ∧
     (add_secret_with_tag fromStr entries secret note llmResponse now nowRfc).llmCalled = false ∧
     (add_secret_with_tag fromStr entries secret note llmResponse now nowRfc).storeWritten = false ∧
     (add_secret_with_tag fromStr entries secret note llmResponse now nowRfc).finalEntries =
       entries) ∧
    (∀ (rawInput : Option String) (rawArgs : List String),
      mainAddExits rawInput rawArgs = true ↔
        (rawInput.getD "" = "" ∨ mainAddNote rawArgs = "")) := by
  have hmain : ∀ (rawInput : Option String) (rawArgs : List String),
      mainAddExits rawInput rawArgs = true ↔
        (rawInput.getD "" = "" ∨ mainAddNote rawArgs = "") := by
    intro rawInput rawArgs
    simp [mainAddExits, String.isEmpty_iff]
  by_cases hs : (trim secret).isEmpty = true
  · have hrun : add_secret_with_tag fromStr entries secret note llmResponse now nowRfc =
        ⟨.emptySecretError, false, false, entries⟩ := by
      simp [add_secret_with_tag, hs]
    rw [hrun]
    exact ⟨⟨Or.inl rfl, rfl, rfl, rfl⟩, hmain⟩
  · have hs' : (trim secret).isEmpty = false := by simpa using hs
    have hn : (trim note).isEmpty = true := by
      rcases h with h | h
      · exact absurd h hs
      · exact h
    have hrun : add_secret_with_tag fromStr entries secret note llmResponse now nowRfc =
        ⟨.emptyNoteError, false, false, entries⟩ := by
      simp [add_secret_with_tag, hs', hn]
    rw [hrun]
    exact ⟨⟨Or.inr rfl, rfl, rfl, rfl⟩, hmain⟩

/-- Witness for `add_blank_input_silent_success`: a whitespace-only secret
passes `main`'s guard yet is rejected silently, with no LLM call and no
store write. -/
theorem add_blank_input_silent_success_witness :
    (trim "   ").isEmpty = true ∧
    mainAddExits (some "   ") ["gitcode", "token"] = false ∧
    (add_secret_with_tag (fun _ => none) [] "   " "gitcode token" "resp" 0 "t").llmCalled =
      false ∧
    (add_secret_with_tag (fun _ => none) [] "   " "gitcode token" "resp" 0 "t").storeWritten =
      false :=
  ⟨by decide, by decide,
    (add_blank_input_silent_success (fun _ => none) [] "   " "gitcode token" "resp" 0 "t"
      (Or.inl (by decide))).1.2.1,
    (add_blank_input_silent_success (fun _ => none) [] "   " "gitcode token" "resp" 0 "t"
      (Or.inl (by decide))).1.2.2.1⟩

/-- C2 counterexample: a `config.toml` whose content fails to parse makes
`load_config` propagate the error — no backup is taken, no warning is
emitted, and the load does not complete with a default. -/
theorem load_config_corruption_propagates :
    (load_config true "not toml" fun _ => none) = ⟨none, false, false, false⟩ := rfl

/-- C2 (amended): the store and prompt loaders do recover from a parse
failure: the corrupted file is renamed to its backup path, the warning is
emitted, and the load completes with the freshly seeded default document
(the prompt loader also writes the default file back to disk). -/
theorem load_store_prompt_corruption_recovered (content : String)
    (parseS : String → Option (List StoreEntry)) (parseP : String → Option PromptConfig)
    (hs : parseS content = none) (hp : parseP content = none) :
    load_store true content parseS = ⟨some [], true, true, false⟩ ∧
    load_prompt_config true content parseP = ⟨some defaultPromptConfig, true, true, true⟩ := by
  have hmerge : mergeDefaults defaultPromptConfig = defaultPromptConfig := rfl
  constructor
  · simp [load_store, hs]
  · simp [load_prompt_config, hp, hmerge]

/-- Witness for `load_store_prompt_corruption_recovered` on unparsable
content. -/
theorem load_store_prompt_corruption_recovered_witness :
    load_store true "garbage" (fun _ => none) = ⟨some [], true, true, false⟩ ∧
    load_prompt_config true "garbage" (fun _ => none) =
      ⟨some defaultPromptConfig, true, true, true⟩ :=
  ⟨(load_store_prompt_corruption_recovered "garbage" (fun _ => none) (fun _ => none) rfl rfl).1,
   (load_store_prompt_corruption_recovered "garbage" (fun _ => none) (fun _ => none) rfl rfl).2⟩

/-- C6 counterexample: when the candidate, all of its `-2` … `-99`
variants, and the timestamp-suffixed variant are already taken, the
unchecked timestamp fallback of `ensure_unique_tag` returns a tag that is
in the existing-tag set. -/
theorem ensure_unique_tag_collision_example :
    ensure_unique_tag "t" collidingTags 5 = "t-5" ∧ "t-5" ∈ collidingTags ∧
    collidingTags.contains (lowercase (ensure_unique_tag "t" collidingTags 5)) = true := by
  decide

/-- C6 (amended): whenever the timestamp-suffixed last-resort candidate is
not itself taken, `ensure_unique_tag` never returns a tag whose lowercase
form is in the existing-tag set; and on tags `["api-key"]` with candidate
"api-key" it returns "api-key-2". -/
theorem ensure_unique_tag_fresh (tag : String) (existing_tags : List String) (now : Nat)
    (hts : existing_tags.contains (lowercase (tag ++ "-" ++ toString now)) = false) :
    existing_tags.contains (lowercase (ensure_unique_tag tag existing_tags now)) = false ∧
    ensure_unique_tag "api-key" ["api-key"] now = "api-key-2" := by
  constructor
  · unfold ensure_unique_tag
    split
    next hcond => simpa using hcond
    next hcond =>
      split
      next i hfind => simpa using List.find?_some hfind
      next hfind => exact hts
  · rfl

/-- Witness for `ensure_unique_tag_fresh` on a fresh candidate and a
realistic timestamp. -/
theorem ensure_unique_tag_fresh_witness :
    (["api-key"] : List String).contains
      (lowercase ("fresh" ++ "-" ++ toString 1700000000000)) = false ∧
    (["api-key"] : List String).contains
      (lowercase (ensure_unique_tag "fresh" ["api-key"] 1700000000000)) = false ∧
    ensure_unique_tag "api-key" ["api-key"] 1700000000000 = "api-key-2" :=
  ⟨by decide,
    (ensure_unique_tag_fresh "fresh" ["api-key"] 1700000000000 (by decide)).1,
    (ensure_unique_tag_fresh "fresh" ["api-key"] 1700000000000 (by decide)).2⟩

/-- C8 counterexample: the note "untagged" has word characters, yet
`fallback_tag` returns "untagged" for it, so "untagged" is not returned
*exactly* when the note has no word characters. -/
theorem fallback_tag_untagged_note :
    fallback_tag "untagged" = "untagged" ∧ splitWhitespace "untagged" = ["untagged"] := by
  decide

/-- C8 (amended): `fallback_tag` returns "untagged" whenever the note has
no word characters, and otherwise returns the first at most four
whitespace-separated words of the note, lowercased and hyphen-joined
(which can also be the string "untagged", as for the note "untagged"). -/
theorem fallback_tag_characterization (note : String) :
    (splitWhitespace note = [] ∧ fallback_tag note = "untagged") ∨
    (splitWhitespace note ≠ [] ∧
      fallback_tag note =
        String.intercalate "-" (((splitWhitespace note).take 4).map lowercase)) := by
  rcases hsw : splitWhitespace note with _ | ⟨w, ws⟩
  · left
    refine ⟨rfl, ?_⟩
    simp [fallback_tag, hsw]
  · right
    have hfilter : (w :: ws).filter (fun x => !x.isEmpty) = w :: ws := by
      apply List.filter_eq_self.mpr
      intro x hx
      have hxe := splitWhitespace_ne_empty note x (by rw [hsw]; exact hx)
      simp [hxe]
    refine ⟨List.cons_ne_nil w ws, ?_⟩
    simp [fallback_tag, hsw, hfilter]

/-- C3: masked entries are a function of the entries' non-secret fields
only, so the search prompt is independent of the secret strings, and every
secret is replaced by the placeholder `SECRET_<id>`. -/
theorem build_masked_entries_secret_independent (l1 l2 : List StoreEntry)
    (h : l1.map maskView = l2.map maskView) :
    build_masked_entries l1 = build_masked_entries l2 ∧
    (∀ query, build_search_prompt query (build_masked_entries l1) =
      build_search_prompt query (build_masked_entries l2)) ∧
    (build_masked_entries l1).map MaskedEntry.secret_placeholder =
      l1.map fun e => "SECRET_" ++ toString e.id := by
  have key : ∀ l : List StoreEntry,
      build_masked_entries l = (l.map maskView).map
        (fun v => ⟨v.1, v.2.1, v.2.2.1, v.2.2.2, "SECRET_" ++ toString v.1⟩) := by
    intro l
    simp [build_masked_entries, maskView, List.map_map, Function.comp]
  have h1 : build_masked_entries l1 = build_masked_entries l2 := by
    rw [key, key, h]
  refine ⟨h1, fun query => by rw [h1], ?_⟩
  simp [build_masked_entries, List.map_map, Function.comp]

/-- Invariant of the fuzzy-matching fold: a strictly positive final best
score can only have been set by a scored key of the list, and the best
match is that key. -/
theorem fuzzyBest_spec (fuzzy : String → String → Option Int) (input_cmd : String)
    (keys : List String) (h : 0 < (fuzzyBest fuzzy input_cmd keys).2) :
    ∃ k, (fuzzyBest fuzzy input_cmd keys).1 = some k ∧
      fuzzy k input_cmd = some (fuzzyBest fuzzy input_cmd keys).2 ∧ k ∈ keys := by
  have hgen : ∀ (ks : List String) (acc : Option String × Int),
      (0 < acc.2 → ∃ k, acc.1 = some k ∧ fuzzy k input_cmd = some acc.2 ∧ k ∈ keys) →
      (∀ x ∈ ks, x ∈ keys) →
      0 < (ks.foldl
        (fun best key =>
          match fuzzy key input_cmd with
          | some score => if score > best.2 then (some key, score) else best
          | none => best) acc).2 →
      ∃ k, (ks.foldl
        (fun best key =>
          match fuzzy key input_cmd with
          | some score => if score > best.2 then (some key, score) else best
          | none => best) acc).1 = some k ∧
        fuzzy k input_cmd = some (ks.foldl
          (fun best key =>
            match fuzzy key input_cmd with
            | some score => if score > best.2 then (some key, score) else best
            | none => best) acc).2 ∧ k ∈ keys := by
    intro ks
    induction ks with
    | nil => intro acc hacc _ hpos; exact hacc hpos
    | cons x t ih =>
      intro acc hacc hsub hpos
      simp only [List.foldl_cons] at hpos ⊢
      refine ih _ ?_ (fun y hy => hsub y (List.mem_cons_of_mem x hy)) hpos
      rcases hfx : fuzzy x input_cmd with _ | sc
      · intro hp
        exact hacc hp
      · intro hp
        dsimp only at hp ⊢
        by_cases hgt : sc > acc.2
        · rw [if_pos hgt] at hp ⊢
          exact ⟨x, rfl, by rw [hfx], hsub x (List.mem_cons_self x t)⟩
        · rw [if_neg hgt] at hp ⊢
          exact hacc hp
  simp only [fuzzyBest] at h ⊢
  exact hgen keys (none, -(2 ^ 63 : Int)) (fun h0 => absurd h0 (by decide)) (fun x hx => hx) h

/-- C4: `find_command` resolves exact match first (even when the input is
a proper prefix of other keys), then a unique prefix match, reports
ambiguity with the candidate list and resolves nothing when two or more
keys share the prefix, and at the fuzzy stage only ever resolves a key
whose fuzzy score is strictly positive. -/
theorem find_command_resolution (fuzzy : String → String → Option Int) (keys : List String)
    (input_cmd : String) :
    (keys.contains input_cmd = true →
      find_command fuzzy keys input_cmd = (some input_cmd, [])) ∧
    (∀ k, keys.contains input_cmd = false →
      keys.filter (fun key => startsWithL input_cmd.data key.data) = [k] →
      find_command fuzzy keys input_cmd = (some k, [])) ∧
    (keys.contains input_cmd = false →
      2 ≤ (keys.filter (fun key => startsWithL input_cmd.data key.data)).length →
      find_command fuzzy keys input_cmd =
        (none, keys.filter (fun key => startsWithL input_cmd.data key.data))) ∧
    (keys.contains input_cmd = false →
      keys.filter (fun key => startsWithL input_cmd.data key.data) = [] →
      ∀ k, (find_command fuzzy keys input_cmd).1 = some k →
        ∃ score, fuzzy k input_cmd = some score ∧ 0 < score ∧ k ∈ keys) := by
  refine ⟨?_, ?_, ?_, ?_⟩
  · intro h
    simp only [find_command, h, if_true]
  · intro k h hf
    simp only [find_command, h]
    rw [if_neg Bool.false_ne_true, hf]
  · intro h hlen
    rcases hfl : keys.filter (fun key => startsWithL input_cmd.data key.data) with _ | ⟨a, t⟩
    · rw [hfl] at hlen
      simp at hlen
    · rcases t with _ | ⟨b, t2⟩
      · rw [hfl] at hlen
        simp at hlen
      · simp only [find_command, h]
        rw [if_neg Bool.false_ne_true, hfl]
  · intro h hf k hk
    simp only [find_command, h] at hk
    rw [if_neg Bool.false_ne_true, hf] at hk
    change (if (fuzzyBest fuzzy input_cmd keys).2 > 0
      then (fuzzyBest fuzzy input_cmd keys).1 else none) = some k at hk
    by_cases hpos : (fuzzyBest fuzzy input_cmd keys).2 > 0
    · rw [if_pos hpos] at hk
      obtain ⟨k', h1, h2, h3⟩ := fuzzyBest_spec fuzzy input_cmd keys hpos
      rw [hk] at h1
      injection h1 with h1
      subst h1
      exact ⟨(fuzzyBest fuzzy input_cmd keys).2, h2, hpos, h3⟩
    · rw [if_neg hpos] at hk
      exact Option.noConfusion hk

/-- Witness for `find_command_resolution` on the three examples of the
spec: exact beats prefix, a unique prefix resolves, an ambiguous prefix
resolves nothing and lists the candidates. -/
theorem find_command_resolution_witness :
    find_command (fun _ _ => none) ["translate", "trans"] "trans" = (some "trans", []) ∧
    find_command (fun _ _ => none) ["translate"] "tran" = (some "translate", []) ∧
    find_command (fun _ _ => none) ["translate", "transform"] "tran" =
      (none, ["translate", "transform"]) :=
  ⟨(find_command_resolution (fun _ _ => none) ["translate", "trans"] "trans").1 (by decide),
   (find_command_resolution (fun _ _ => none) ["translate"] "tran").2.1 "translate"
     (by decide) (by decide),
   ((find_command_resolution (fun _ _ => none) ["translate", "transform"] "tran").2.2.1
     (by decide) (by decide)).trans (by decide)⟩

/-- Witness for `build_masked_entries_secret_independent`: two one-entry
stores differing only in the secret value yield the same masked
entries. -/
theorem build_masked_entries_secret_independent_witness :
    ([(⟨1, "gitcode", "api token", "sk-111", "2024"⟩ : StoreEntry)].map maskView =
      [(⟨1, "gitcode", "api token", "sk-222", "2024"⟩ : StoreEntry)].map maskView) ∧
    build_masked_entries [(⟨1, "gitcode", "api token", "sk-111", "2024"⟩ : StoreEntry)] =
      build_masked_entries [(⟨1, "gitcode", "api token", "sk-222", "2024"⟩ : StoreEntry)] :=
  ⟨by decide,
    (build_masked_entries_secret_independent
      [⟨1, "gitcode", "api token", "sk-111", "2024"⟩]
      [⟨1, "gitcode", "api token", "sk-222", "2024"⟩] (by decide)).1⟩

/-- A nonempty pattern that does not occur in the haystack leaves
`replaceAllF` as the identity (with enough fuel). -/
theorem replaceAllF_of_not_occurs (pat rep : List Char) :
    ∀ (fuel : Nat) (s : List Char), s.length ≤ fuel → occursIn pat s = false →
      replaceAllF pat rep fuel s = s := by
  intro fuel
  induction fuel with
  | zero =>
    intro s hs _
    cases s with
    | nil => rfl
    | cons c t => simp at hs
  | succ n ih =>
    intro s hs hocc
    cases s with
    | nil => rfl
    | cons c t =>
      simp only [occursIn, Bool.or_eq_false_iff] at hocc
      have ht : t.length ≤ n := by
        simp only [List.length_cons] at hs
        omega
      simp only [replaceAllF, hocc.1, Bool.false_and, Bool.false_eq_true, if_false]
      exact congrArg (c :: ·) (ih t ht hocc.2)

/-- String-level corollary: Rust `replace` with an absent pattern is the
identity. -/
theorem replaceStr_of_not_contains (s pat rep : String) (h : containsStr s pat = false) :
    replaceStr s pat rep = s := by
  have hid := replaceAllF_of_not_occurs pat.data rep.data s.data.length s.data le_rfl h
  simp only [replaceStr, replaceAll]
  rw [hid]

/-- The named-argument pass leaves a string without any of the named
placeholders unchanged. -/
theorem applyNamedArgs_id (args : List String) :
    ∀ (pas : List PromptArg) (i : Nat) (r : String),
      (∀ pa ∈ pas, containsStr r ("\x7b" ++ pa.name ++ "\x7d") = false) →
      applyNamedArgs args pas i r = r := by
  intro pas
  induction pas with
  | nil => intro i r _; rfl
  | cons pa rest ih =>
    intro i r h
    simp only [applyNamedArgs]
    rw [replaceStr_of_not_contains r _ _ (h pa (List.mem_cons_self pa rest))]
    exact ih (i + 1) r fun x hx => h x (List.mem_cons_of_mem pa hx)

/-- The numbered-argument pass leaves a string without any of the reachable
numbered placeholders unchanged. -/
theorem applyNumberedArgs_id (promptArgs : Option (List PromptArg)) :
    ∀ (rest : List String) (i : Nat) (r : String),
      (∀ n, i ≤ n → n < i + rest.length →
        containsStr r ("\x7barg" ++ toString (n + 1) ++ "\x7d") = false) →
      applyNumberedArgs promptArgs i rest r = r := by
  intro rest
  induction rest with
  | nil => intro i r _; rfl
  | cons a t ih =>
    intro i r h
    simp only [applyNumberedArgs]
    have h0 : containsStr r ("\x7barg" ++ toString (i + 1) ++ "\x7d") = false :=
      h i le_rfl (by simp)
    have htail : ∀ n, i + 1 ≤ n → n < i + 1 + t.length →
        containsStr r ("\x7barg" ++ toString (n + 1) ++ "\x7d") = false := by
      intro n h1 h2
      exact h n (Nat.le_of_succ_le h1) (by simp only [List.length_cons]; omega)
    cases hc : (promptArgs.map fun v => decide (i < v.length)).getD false
    · rw [if_neg Bool.false_ne_true, replaceStr_of_not_contains r _ _ h0]
      exact ih (i + 1) r htail
    · rw [if_pos rfl]
      exact ih (i + 1) r htail

/-- C5 (amended): filling a template that contains no matching placeholder
(no input placeholder, none of the declared named placeholders, no
reachable numbered placeholder, no catch-all) returns the template
unchanged; unknown placeholders in it are left verbatim. -/
theorem process_template_no_matching_placeholders (template input : String)
    (args : List String) (promptArgs : Option (List PromptArg))
    (hin : containsStr template "\x7binput\x7d" = false)
    (hnamed : ∀ pa ∈ promptArgs.getD [],
      containsStr template ("\x7b" ++ pa.name ++ "\x7d") = false)
    (hnum : ∀ n, n < args.length →
      containsStr template ("\x7barg" ++ toString (n + 1) ++ "\x7d") = false)
    (hargs : containsStr template "\x7bargs\x7d" = false) :
    process_template_with_args template input args promptArgs = template := by
  cases promptArgs with
  | none =>
    simp only [process_template_with_args]
    rw [replaceStr_of_not_contains template _ _ hin]
    rw [applyNumberedArgs_id none args 0 template fun n _ hlt => hnum n (by simpa using hlt)]
    rw [hargs, if_neg Bool.false_ne_true]
  | some pas =>
    simp only [process_template_with_args]
    rw [replaceStr_of_not_contains template _ _ hin]
    rw [applyNamedArgs_id args pas 0 template fun pa hpa => hnamed pa (by simpa using hpa)]
    rw [applyNumberedArgs_id (some pas) args 0 template
      fun n _ hlt => hnum n (by simpa using hlt)]
    rw [hargs, if_neg Bool.false_ne_true]

/-- Witness for `process_template_no_matching_placeholders`: a template
with only an unknown placeholder is returned verbatim. -/
theorem process_template_no_matching_placeholders_witness :
    containsStr "Summarize: \x7bunknown\x7d" "\x7binput\x7d" = false ∧
    process_template_with_args "Summarize: \x7bunknown\x7d" "text" ["a", "b"]
      (some [⟨"tone", "professional", none⟩]) = "Summarize: \x7bunknown\x7d" :=
  ⟨by decide,
    process_template_no_matching_placeholders "Summarize: \x7bunknown\x7d" "text" ["a", "b"]
      (some [⟨"tone", "professional", none⟩]) (by decide) (by decide) (by decide) (by decide)⟩

/-- C5 counterexample: the stages are applied sequentially, so a
placeholder-shaped substring introduced by the input substitution is
itself substituted by the named-argument stage — the occurrence of the
input placeholder is not replaced by the primary input verbatim, which a
one-pass exactly-once-per-occurrence substitution would do. -/
theorem process_template_resubstitutes :
    process_template_with_args "\x7binput\x7d" "\x7btone\x7d" []
      (some [⟨"tone", "T", none⟩]) = "T" ∧
    specOnePassFill "\x7binput\x7d" "\x7btone\x7d" []
      (some [⟨"tone", "T", none⟩]) = "\x7btone\x7d" ∧
    ("T" : String) ≠ "\x7btone\x7d" := by decide

/-- Conversion to `Nat` after `Char.ofNat` on a small valid scalar value. -/
theorem char_toNat_ofNat {n : Nat} (h : n < 55296) : (Char.ofNat n).toNat = n := by
  have hv : n.isValidChar := Or.inl h
  simp [Char.ofNat, hv, Char.ofNatAux, Char.toNat, UInt32.toNat, BitVec.toNat_ofNatLt]

/-- Uppercase ASCII letters are lowered by adding 32 to the scalar value. -/
theorem asciiLower_toNat_of_upper {c : Char} (h1 : 65 ≤ c.toNat) (h2 : c.toNat ≤ 90) :
    (asciiLower c).toNat = c.toNat + 32 := by
  simp only [asciiLower, if_pos (And.intro h1 h2)]
  exact char_toNat_ofNat (by omega)

/-- Characters outside A-Z are left unchanged by `asciiLower`. -/
theorem asciiLower_of_not_upper {c : Char} (h : ¬(65 ≤ c.toNat ∧ c.toNat ≤ 90)) :
    asciiLower c = c := by
  simp only [asciiLower, if_neg h]

/-- Lowering an ASCII alphanumeric yields a clean character. -/
theorem cleanChar_asciiLower {c : Char} (h : isAsciiAlnum c = true) :
    cleanChar (asciiLower c) = true := by
  by_cases hu : 65 ≤ c.toNat ∧ c.toNat ≤ 90
  · have ht := asciiLower_toNat_of_upper hu.1 hu.2
    have hnu : ¬(65 ≤ (asciiLower c).toNat ∧ (asciiLower c).toNat ≤ 90) := by omega
    have h1 : isAsciiAlnum (asciiLower c) = true := by
      simp only [isAsciiAlnum, Bool.or_eq_true, Bool.and_eq_true, decide_eq_true_eq, ht]
      omega
    have h2 : (asciiLower (asciiLower c) == asciiLower c) = true := by
      rw [asciiLower_of_not_upper hnu]
      exact beq_self_eq_true _
    simp [cleanChar, h1, h2]
  · have hfix := asciiLower_of_not_upper hu
    rw [hfix]
    have h2 : (asciiLower c == c) = true := by
      rw [hfix]
      exact beq_self_eq_true _
    simp [cleanChar, h, h2]

/-- A lowered ASCII alphanumeric is never a hyphen. -/
theorem asciiLower_ne_dash {c : Char} (h : isAsciiAlnum c = true) :
    (asciiLower c == '-') = false := by
  have hn : 48 ≤ (asciiLower c).toNat := by
    simp only [isAsciiAlnum, Bool.or_eq_true, Bool.and_eq_true, decide_eq_true_eq] at h
    by_cases hu : 65 ≤ c.toNat ∧ c.toNat ≤ 90
    · have := asciiLower_toNat_of_upper hu.1 hu.2
      omega
    · rw [asciiLower_of_not_upper hu]
      omega
  cases hbe : asciiLower c == '-' with
  | false => rfl
  | true =>
    exfalso
    rw [eq_of_beq hbe] at hn
    exact absurd hn (by decide)

/-- Unfolding equation for `hasDoubleDash` on a cons cell. -/
theorem hasDoubleDash_cons (x : Char) (t : List Char) :
    hasDoubleDash (x :: t) = (((x == '-') && headDash t) || hasDoubleDash t) := by
  cases t with
  | nil => simp [hasDoubleDash, headDash]
  | cons d t2 => simp [hasDoubleDash, headDash]

/-- Every character the sanitize loop emits is clean. -/
theorem sanitizeCore_clean : ∀ (l : List Char) (b : Bool),
    ∀ c ∈ sanitizeCore l b, cleanChar c = true := by
  intro l
  induction l with
  | nil => intro b c hc; simp [sanitizeCore] at hc
  | cons x rest ih =>
    intro b c hc
    by_cases ha : isAsciiAlnum x = true
    · simp only [sanitizeCore, ha, if_true, List.mem_cons] at hc
      rcases hc with rfl | hc
      · exact cleanChar_asciiLower ha
      · exact ih false c hc
    · have ha' : isAsciiAlnum x = false := by simpa using ha
      by_cases hd : (x == '-' || isRustWhitespace x) = true
      · cases b with
        | true =>
          simp only [sanitizeCore, ha', Bool.false_eq_true, if_false, hd, if_true] at hc
          exact ih true c hc
        | false =>
          simp only [sanitizeCore, ha', Bool.false_eq_true, if_false, hd, if_true,
            List.mem_cons] at hc
          rcases hc with rfl | hc
          · decide
          · exact ih true c hc
      · have hd' : (x == '-' || isRustWhitespace x) = false := by simpa using hd
        simp only [sanitizeCore, ha', hd', Bool.false_eq_true, if_false] at hc
        exact ih b c hc

/-- The sanitize loop emits no two consecutive hyphens, and emits no
leading hyphen while the hyphen flag is set. -/
theorem sanitizeCore_structure : ∀ (l : List Char) (b : Bool),
    hasDoubleDash (sanitizeCore l b) = false ∧
    (b = true → headDash (sanitizeCore l b) = false) := by
  intro l
  induction l with
  | nil => intro b; exact ⟨rfl, fun _ => rfl⟩
  | cons x rest ih =>
    intro b
    by_cases ha : isAsciiAlnum x = true
    · have hdc := asciiLower_ne_dash ha
      constructor
      · simp only [sanitizeCore, ha, if_true]
        rw [hasDoubleDash_cons, hdc, Bool.false_and, Bool.false_or]
        exact (ih false).1
      · intro _
        simp only [sanitizeCore, ha, if_true, headDash]
        exact hdc
    · have ha' : isAsciiAlnum x = false := by simpa using ha
      by_cases hd : (x == '-' || isRustWhitespace x) = true
      · cases b with
        | true =>
          simp only [sanitizeCore, ha', Bool.false_eq_true, if_false, hd, if_true]
          exact ⟨(ih true).1, fun _ => (ih true).2 rfl⟩
        | false =>
          simp only [sanitizeCore, ha', Bool.false_eq_true, if_false, hd, if_true]
          constructor
          · rw [hasDoubleDash_cons, (ih true).2 rfl, Bool.and_false, Bool.false_or]
            exact (ih true).1
          · intro hfalse
            exact hfalse.elim
      · have hd' : (x == '-' || isRustWhitespace x) = false := by simpa using hd
        simp only [sanitizeCore, ha', hd', Bool.false_eq_true, if_false]
        exact ih b

/-- The sanitize loop is the identity on a list of clean characters with
no double hyphen (and no leading hyphen when the flag is set). -/
theorem sanitizeCore_id : ∀ (l : List Char) (b : Bool),
    (∀ c ∈ l, cleanChar c = true) → hasDoubleDash l = false →
    (b = true → headDash l = false) → sanitizeCore l b = l := by
  intro l
  induction l with
  | nil => intro b _ _ _; rfl
  | cons x rest ih =>
    intro b hclean hdd hhd
    have hx := hclean x (List.mem_cons_self x rest)
    have hddr : hasDoubleDash rest = false := by
      rw [hasDoubleDash_cons] at hdd
      exact (Bool.or_eq_false_iff.mp hdd).2
    have hcleanr : ∀ c ∈ rest, cleanChar c = true :=
      fun c hc => hclean c (List.mem_cons_of_mem x hc)
    simp only [cleanChar, Bool.or_eq_true, Bool.and_eq_true] at hx
    rcases hx with ⟨ha, hfix⟩ | hdash
    · simp only [sanitizeCore, ha, if_true]
      rw [eq_of_beq hfix]
      exact congrArg (x :: ·) (ih false hcleanr hddr fun hq => Bool.noConfusion hq)
    · have hx' : x = '-' := eq_of_beq hdash
      subst hx'
      have hb : b = false := by
        cases b with
        | false => rfl
        | true =>
          have hcontra := hhd rfl
          simp [headDash] at hcontra
      subst hb
      have ha' : isAsciiAlnum '-' = false := by decide
      have hcd : (('-' : Char) == '-' || isRustWhitespace '-') = true := by decide
      simp only [sanitizeCore, ha', Bool.false_eq_true, if_false, hcd, if_true]
      have hhdr : headDash rest = false := by
        rw [hasDoubleDash_cons] at hdd
        have h1 := (Bool.or_eq_false_iff.mp hdd).1
        simpa using h1
      exact congrArg (List.cons '-') (ih true hcleanr hddr fun _ => hhdr)

/-- A double hyphen in the tail would be one in the whole list. -/
theorem hasDoubleDash_tail {x : Char} {t : List Char} (h : hasDoubleDash (x :: t) = false) :
    hasDoubleDash t = false := by
  rw [hasDoubleDash_cons] at h
  exact (Bool.or_eq_false_iff.mp h).2

/-- Dropping a prefix preserves the absence of double hyphens. -/
theorem hasDoubleDash_dropWhile (p : Char → Bool) :
    ∀ l : List Char, hasDoubleDash l = false → hasDoubleDash (l.dropWhile p) = false := by
  intro l
  induction l with
  | nil => intro h; exact h
  | cons x t ih =>
    intro h
    rw [List.dropWhile_cons]
    by_cases hp : p x = true
    · rw [if_pos hp]
      exact ih (hasDoubleDash_tail h)
    · rw [if_neg hp]
      exact h

/-- The head of an append is the head of its nonempty first part. -/
theorem headDash_append_of_ne_nil {a : List Char} (b : List Char) (h : a ≠ []) :
    headDash (a ++ b) = headDash a := by
  cases a with
  | nil => exact absurd rfl h
  | cons x t => rfl

/-- Appending one character creates a double hyphen exactly when the list
ends in a hyphen and the new character is one. -/
theorem hasDoubleDash_append_one (c : Char) :
    ∀ l : List Char, hasDoubleDash (l ++ [c]) =
      (hasDoubleDash l || (headDash l.reverse && (c == '-'))) := by
  intro l
  induction l with
  | nil => simp [hasDoubleDash, headDash]
  | cons x t ih =>
    cases t with
    | nil => simp [hasDoubleDash, headDash]
    | cons y t2 =>
      have hrev : headDash ((x :: y :: t2).reverse) = headDash ((y :: t2).reverse) := by
        rw [List.reverse_cons]
        exact headDash_append_of_ne_nil [x] (by simp)
      rw [List.cons_append, hasDoubleDash_cons x ((y :: t2) ++ [c]),
        headDash_append_of_ne_nil [c] (by simp), ih, hasDoubleDash_cons x (y :: t2), hrev,
        Bool.or_assoc]

/-- Double-hyphen detection is symmetric under reversal. -/
theorem hasDoubleDash_reverse : ∀ l : List Char, hasDoubleDash l.reverse = hasDoubleDash l := by
  intro l
  induction l with
  | nil => rfl
  | cons x t ih =>
    rw [List.reverse_cons, hasDoubleDash_append_one, ih, List.reverse_reverse,
      hasDoubleDash_cons, Bool.or_comm, Bool.and_comm]

/-- After dropping leading hyphens no leading hyphen remains. -/
theorem headDash_dropWhile_dash : ∀ l : List Char, headDash (l.dropWhile (· == '-')) = false := by
  intro l
  induction l with
  | nil => rfl
  | cons x t ih =>
    rw [List.dropWhile_cons]
    by_cases hx : (x == '-') = true
    · rw [if_pos hx]
      exact ih
    · rw [if_neg hx]
      exact Bool.eq_false_iff.mpr hx

/-- Stripping a trailing run cannot create a leading hyphen. -/
theorem strip_trailing_headDash (p : Char → Bool) (l : List Char)
    (h : headDash ((l.reverse.dropWhile p).reverse) = true) : headDash l = true := by
  obtain ⟨u, hu⟩ := List.dropWhile_suffix (l := l.reverse) p
  have hl : (l.reverse.dropWhile p).reverse ++ u.reverse = l := by
    have h2 := congrArg List.reverse hu
    simpa [List.reverse_append] using h2
  have hne : (l.reverse.dropWhile p).reverse ≠ [] := by
    intro hnil
    rw [hnil] at h
    exact Bool.noConfusion h
  rw [← hl, headDash_append_of_ne_nil _ hne]
  exact h

/-- Dropping leading hyphens is the identity when there is none. -/
theorem dropWhile_dash_of_headDash_false {l : List Char} (h : headDash l = false) :
    l.dropWhile (· == '-') = l := by
  cases l with
  | nil => rfl
  | cons x t =>
    have hx : (x == '-') = false := h
    rw [List.dropWhile_cons, if_neg (by simp [hx])]

/-- C7: `sanitize_tag` is idempotent, and its output never has a leading
hyphen, a trailing hyphen, or two consecutive hyphens. -/
theorem sanitize_tag_idempotent_and_shape (s : String) :
    sanitize_tag (sanitize_tag s) = sanitize_tag s ∧
    hasDoubleDash (sanitize_tag s).data = false ∧
    headDash (sanitize_tag s).data = false ∧
    headDash (sanitize_tag s).data.reverse = false := by
  have hddC : hasDoubleDash (sanitizeCore s.data false) = false :=
    (sanitizeCore_structure s.data false).1
  have hddL1 : hasDoubleDash ((sanitizeCore s.data false).dropWhile (· == '-')) = false :=
    hasDoubleDash_dropWhile _ _ hddC
  have hhdL1 : headDash ((sanitizeCore s.data false).dropWhile (· == '-')) = false :=
    headDash_dropWhile_dash _
  have hdata : (sanitize_tag s).data =
      ((((sanitizeCore s.data false).dropWhile (· == '-')).reverse.dropWhile
        (· == '-')).reverse) := rfl
  have hddL : hasDoubleDash (sanitize_tag s).data = false := by
    rw [hdata, hasDoubleDash_reverse]
    exact hasDoubleDash_dropWhile _ _ (by rw [hasDoubleDash_reverse]; exact hddL1)
  have hldL : headDash (sanitize_tag s).data.reverse = false := by
    rw [hdata, List.reverse_reverse]
    exact headDash_dropWhile_dash _
  have hhdL : headDash (sanitize_tag s).data = false := by
    cases hx : headDash (sanitize_tag s).data with
    | false => rfl
    | true =>
      rw [hdata] at hx
      have hlead := strip_trailing_headDash (· == '-')
        ((sanitizeCore s.data false).dropWhile (· == '-')) hx
      rw [hlead] at hhdL1
      exact Bool.noConfusion hhdL1
  have hcleanL : ∀ c ∈ (sanitize_tag s).data, cleanChar c = true := by
    intro c hc
    rw [hdata, List.mem_reverse] at hc
    have hc2 := (List.dropWhile_sublist (· == '-')).subset hc
    rw [List.mem_reverse] at hc2
    have hc3 := (List.dropWhile_sublist (· == '-')).subset hc2
    exact sanitizeCore_clean s.data false c hc3
  refine ⟨?_, hddL, hhdL, hldL⟩
  have e1 : sanitizeCore (sanitize_tag s).data false = (sanitize_tag s).data :=
    sanitizeCore_id (sanitize_tag s).data false hcleanL hddL fun hq => Bool.noConfusion hq
  have e2 : (sanitize_tag s).data.dropWhile (· == '-') = (sanitize_tag s).data :=
    dropWhile_dash_of_headDash_false hhdL
  have e3 : (sanitize_tag s).data.reverse.dropWhile (· == '-') = (sanitize_tag s).data.reverse :=
    dropWhile_dash_of_headDash_false hldL
  show String.mk ((((sanitizeCore (sanitize_tag s).data false).dropWhile
    (· == '-')).reverse.dropWhile (· == '-')).reverse) = sanitize_tag s
  rw [e1, e2, e3, List.reverse_reverse]

end Xa
